import Mathlib

/-!
Verification of the TradingView-Alerts-Binance signal-to-execution engine.

This file gives a shallow embedding, over exact rational arithmetic, of the
arithmetic and state-machine kernels of the bot: Python-style rounding
(`round` is round-half-to-even), the quantity/price grid rounding of
`QuantityCalculator._round_value` and `HedgingBinanceClient.calculate_quantity`,
the PnL-to-price conversions of `HedgingBinanceClient`, symbol normalization,
signal parsing and the duplicate filter, the classic/stop reversal paths, the
price-stream watch machinery of `BinancePriceStream._check_watched_prices`,
and the hedging strategy's TP-restart path.  Theorems about these definitions
settle the specification claims.
-/

namespace TVAB

/-- Python `round(x)` on an exact rational: round half to even (banker's
rounding), as CPython does. -/
def pyRoundInt (q : ℚ) : ℤ :=
  let f : ℤ := ⌊q⌋
  let r : ℚ := q - f
  if r < 1/2 then f
  else if 1/2 < r then f + 1
  else if f % 2 = 0 then f else f + 1

/-- Python `round(x, d)` on an exact rational: round `x * 10^d` half to even,
then divide back. -/
def pyRoundDp (d : ℕ) (q : ℚ) : ℚ :=
  (pyRoundInt (q * 10 ^ d) : ℚ) / 10 ^ d

/-- Representability with at most `d` decimal places: `q * 10^d` is an
integer. -/
def HasDp (d : ℕ) (q : ℚ) : Prop :=
  ∃ n : ℤ, q * 10 ^ d = (n : ℚ)

/-- The quantity branch of `QuantityCalculator._round_value` when the
instrument advertises a step (src/src/exchanges/quantity_calculator.py lines
86-103): `round(value/step)*step`, re-rounded to the step's decimal count
`stepDp`, then floored at `min_qty` when `min_qty` is truthy.  The body of
`HedgingBinanceClient.calculate_quantity` (src/src/binance/hedging_client.py
lines 524-532) and of the classic and stop clients is the same computation. -/
def round_value_quantity (step : ℚ) (stepDp : ℕ) (minQty : ℚ) (value : ℚ) : ℚ :=
  let rounded := (pyRoundInt (value / step) : ℚ) * step
  let rounded := pyRoundDp stepDp rounded
  if minQty ≠ 0 ∧ rounded < minQty then minQty else rounded

/-- Embedding of `calculate_quantity` (src/src/binance/hedging_client.py lines 500-534, and
the identical classic/stop client bodies): the raw quantity is
`position_size * leverage / current_price`, then grid rounding. -/
def calculate_quantity (leverage step : ℚ) (stepDp : ℕ) (minQty : ℚ)
    (positionSize currentPrice : ℚ) : ℚ :=
  round_value_quantity step stepDp minQty (positionSize * leverage / currentPrice)

/-- Embedding of `HedgingBinanceClient.round_price` (src/src/binance/hedging_client.py lines
479-498): `round(price/tick_size)*tick_size`, then `round(·, 8)`. -/
def round_price (tick : ℚ) (price : ℚ) : ℚ :=
  pyRoundDp 8 ((pyRoundInt (price / tick) : ℚ) * tick)

inductive PositionSide
  | LONG
  | SHORT
deriving DecidableEq, Repr

/-- Embedding of `HedgingBinanceClient.calculate_activation_price`
(src/src/binance/hedging_client.py lines 536-566):
`movement = activation_pnl / (100 * leverage)`, then `entry_price + movement`
for LONG and `entry_price - movement` for SHORT, rounded to the tick grid.
Note that the movement is applied as an absolute price offset, not as a
fraction of the entry price. -/
def calculate_activation_price (leverage tick : ℚ) (entryPrice : ℚ)
    (positionSide : PositionSide) (activationPnl : ℚ) : ℚ :=
  let movement := activationPnl / (100 * leverage)
  let result := match positionSide with
    | .LONG => entryPrice + movement
    | .SHORT => entryPrice - movement
  round_price tick result

/-- Embedding of `HedgingBinanceClient.calculate_stop_loss_price` (lines 568-598): the same
additive conversion as `calculate_activation_price`. -/
def calculate_stop_loss_price (leverage tick : ℚ) (entryPrice : ℚ)
    (positionSide : PositionSide) (stopPnl : ℚ) : ℚ :=
  let movement := stopPnl / (100 * leverage)
  let result := match positionSide with
    | .LONG => entryPrice + movement
    | .SHORT => entryPrice - movement
  round_price tick result

/-- Embedding of `HedgingBinanceClient.calculate_trigger_price` (lines 600-630): the same
additive conversion as `calculate_activation_price`. -/
def calculate_trigger_price (leverage tick : ℚ) (entryPrice : ℚ)
    (positionSide : PositionSide) (triggerPnl : ℚ) : ℚ :=
  let movement := triggerPnl / (100 * leverage)
  let result := match positionSide with
    | .LONG => entryPrice + movement
    | .SHORT => entryPrice - movement
  round_price tick result

/-- The leverage-adjusted PnL-to-price formula stated by the specification
(§4.3.2 and §4.3.3): `entry × (1 + pnl/(100·leverage))` for LONG and
`entry × (1 - pnl/(100·leverage))` for SHORT.  Written from the spec's words,
to be compared against `calculate_activation_price`. -/
def specPnlPrice (leverage : ℚ) (entryPrice : ℚ) (positionSide : PositionSide)
    (pnl : ℚ) : ℚ :=
  let fraction := pnl / (100 * leverage)
  match positionSide with
  | .LONG => entryPrice * (1 + fraction)
  | .SHORT => entryPrice * (1 - fraction)

/-- Embedding of `HedgingBinanceClient.calculate_new_stop_price` (lines 632 onward): the TP
price does use the multiplicative formula `entry * (1 ± pnl/(100·leverage))`. -/
def calculate_new_stop_price (leverage tick : ℚ) (entryPrice : ℚ)
    (positionSide : PositionSide) (tpPnl : ℚ) : ℚ :=
  let movement := tpPnl / (100 * leverage)
  let result := match positionSide with
    | .LONG => entryPrice * (1 + movement)
    | .SHORT => entryPrice * (1 - movement)
  round_price tick result

/-- Embedding of `StopStrategy._calculate_stop_levels`
(src/src/strategies/stop_strategy/strategy.py lines 320-346): the stop variant
converts PnL percents multiplicatively.  Returns
`(activation_price, stop_limit_price)`; `Buy` is the long side. -/
def stop_calculate_stop_levels (leverage : ℚ) (entryPrice : ℚ) (isBuy : Bool)
    (activationPercent stopPercent : ℚ) : ℚ × ℚ :=
  let activationMovement := activationPercent / (100 * leverage)
  let stopMovement := stopPercent / (100 * leverage)
  if isBuy then
    (entryPrice * (1 + activationMovement), entryPrice * (1 + stopMovement))
  else
    (entryPrice * (1 - activationMovement), entryPrice * (1 - stopMovement))

/-- Whether `pat` occurs at the start of `l`. -/
def startsWith : List Char → List Char → Bool
  | [], _ => true
  | _ :: _, [] => false
  | p :: ps, c :: cs => p = c && startsWith ps cs

/-- Python substring test `pat in l`. -/
def containsSub (pat : List Char) : List Char → Bool
  | [] => startsWith pat []
  | c :: cs => startsWith pat (c :: cs) || containsSub pat cs

/-- Python `l.endswith(pat)`. -/
def endsWithSfx (pat l : List Char) : Bool :=
  startsWith pat.reverse l.reverse

/-- Python `str.rstrip('.P')`: removes all trailing characters belonging to
the set `{'.', 'P'}` (a character set, not a suffix). -/
def py_rstrip_dotP (s : List Char) : List Char :=
  ((s.reverse.dropWhile (fun c => c == '.' || c == 'P')).reverse)

/-- Embedding of `BinanceClient.normalize_symbol` (src/src/binance/api.py lines 418-429 and
src/src/exchanges/binance/api.py lines 90-101):
`symbol.rstrip('.P') if symbol.endswith('.P') else symbol`. -/
def normalize_symbol (s : List Char) : List Char :=
  if endsWithSfx ['.', 'P'] s then py_rstrip_dotP s else s

inductive Action
  | buy
  | sell
deriving DecidableEq, Repr

/-- Python `str.strip()`: drop leading and trailing whitespace. -/
def pyStrip (s : List Char) : List Char :=
  ((s.dropWhile Char.isWhitespace).reverse.dropWhile Char.isWhitespace).reverse

/-- Embedding of `ClassicStrategy.parse_message` (src/src/strategies/classic_strategy/strategy.py
lines 106-121; the stop and hedging variants carry the identical body): an
empty message yields none; otherwise strip and lower-case, then look for the
substring `buy` first and `sell` second. -/
def parse_message (msg : List Char) : Option Action :=
  if msg = [] then none
  else
    let m := (pyStrip msg).map Char.toLower
    if containsSub ['b', 'u', 'y'] m then some .buy
    else if containsSub ['s', 'e', 'l', 'l'] m then some .sell
    else none

/-- Embedding of `ClassicStrategy.should_process_signal` (src/src/strategies/classic_strategy/strategy.py
lines 123-134; identical in the stop and hedging variants): the duplicate
filter.  Returns whether the signal is processed together with the updated
`last_action`. -/
def should_process_signal (lastAction : Option Action) (action : Action) :
    Bool × Option Action :=
  match lastAction with
  | none => (true, some action)
  | some la => if la = action then (false, some la) else (true, some action)

inductive WebhookVerdict
  | unrecognized
  | ignored
  | ok (action : Action)
  | error
deriving DecidableEq, Repr

/-- Embedding of `ClassicStrategy.process_webhook` (src/src/strategies/classic_strategy/strategy.py
lines 136-157): parse, duplicate-filter (which already updates `last_action`),
then dispatch; a failing handler yields the error verdict.  The venue outcome
of `process_signal` is abstracted into `handlerSuccess`.  Returns the verdict
and the resulting `last_action`. -/
def process_webhook (lastAction : Option Action) (msg : List Char)
    (handlerSuccess : Bool) : WebhookVerdict × Option Action :=
  match parse_message msg with
  | none => (.unrecognized, lastAction)
  | some a =>
      match should_process_signal lastAction a with
      | (false, last') => (.ignored, last')
      | (true, last') => (if handlerSuccess then .ok a else .error, last')

/-- The classic strategy's in-memory state (spec §3 "Classic State"). -/
structure ClassicState where
  lastAction : Option Action
  lastQuantity : Option ℚ
deriving DecidableEq, Repr

/-- Embedding of `ClassicStrategy._reverse_position` (src/src/strategies/classic_strategy/strategy.py
lines 240-267), given the computed new quantity's inputs: the submitted order
quantity is `last_quantity + new_quantity`, or `new_quantity * 2` when
`last_quantity` is unset; on success only `new_quantity` is stored.  Returns
the submitted quantity and the resulting state. -/
def classic_reverse_position (leverage step : ℚ) (stepDp : ℕ) (minQty : ℚ)
    (positionSize : ℚ) (st : ClassicState) (currentPrice : ℚ)
    (orderSuccess : Bool) : ℚ × ClassicState :=
  let newQuantity := calculate_quantity leverage step stepDp minQty positionSize currentPrice
  let totalQuantity := match st.lastQuantity with
    | none => newQuantity * 2
    | some q => q + newQuantity
  (totalQuantity,
    if orderSuccess then { st with lastQuantity := some newQuantity } else st)

section Stream

variable {α : Type} [LinearOrder α]

inductive Direction
  | long
  | short
deriving DecidableEq, Repr

inductive BarrierSide
  | above
  | below
deriving DecidableEq, Repr

/-- One entry of `BinancePriceStream.watched_prices` (src/src/binance/wss.py
lines 59-84). -/
structure Watch (α : Type) where
  targetPrice : α
  direction : Direction
  barrierPrice : Option α
  barrierSide : Option BarrierSide
  barrierCrossed : Bool
  triggered : Bool
deriving DecidableEq, Repr

/-- The watch created by `BinancePriceStream.watch_price`: flags start
false. -/
def initWatch (target : α) (dir : Direction) (bp : Option α)
    (bs : Option BarrierSide) : Watch α :=
  ⟨target, dir, bp, bs, false, false⟩

/-- The key a watch is stored under: the source formats the 4-tuple of
target price, direction, barrier price and barrier side into a string. -/
def watchKey (w : Watch α) : α × Direction × Option α × Option BarrierSide :=
  (w.targetPrice, w.direction, w.barrierPrice, w.barrierSide)

/-- Direction test of `_check_watched_prices`: `long` fires when
`price ≥ target`, `short` when `price ≤ target`. -/
def priceHit (dir : Direction) (target price : α) : Bool :=
  match dir with
  | .long => target ≤ price
  | .short => price ≤ target

/-- Barrier test of `_check_watched_prices`: `above` means strictly
`price > barrier`, `below` strictly `price < barrier`. -/
def barrierHit (side : BarrierSide) (barrier price : α) : Bool :=
  match side with
  | .above => barrier < price
  | .below => price < barrier

/-- One watch's evaluation on one frame, mirroring the body of
`BinancePriceStream._check_watched_prices` (src/src/binance/wss.py lines
218-260): a triggered watch is skipped; with a barrier present the
`barrier_crossed` flag is first updated and firing requires it; otherwise the
plain direction test runs.  Returns the updated watch and whether it fired. -/
def checkWatch (w : Watch α) (price : α) : Watch α × Bool :=
  if w.triggered then (w, false)
  else
    match w.barrierPrice, w.barrierSide with
    | some bp, some bs =>
        let crossed := w.barrierCrossed || barrierHit bs bp price
        let w' := { w with barrierCrossed := crossed }
        if crossed && priceHit w.direction w.targetPrice price then
          ({ w' with triggered := true }, true)
        else (w', false)
    | _, _ =>
        if priceHit w.direction w.targetPrice price then
          ({ w with triggered := true }, true)
        else (w, false)

/-- One ticker frame against the whole watch set, in registration order: a
fired watch's callback runs and the watch is removed (`del`); the others stay
with their updated barrier flag.  Returns the remaining watches and the number
of callbacks invoked. -/
def stepFrame : List (Watch α) → α → List (Watch α) × ℕ
  | [], _ => ([], 0)
  | w :: ws, price =>
      let (w', fired) := checkWatch w price
      let (ws', n) := stepFrame ws price
      if fired then (ws', n + 1) else (w' :: ws', n)

/-- A whole frame sequence: the remaining watch set and the total number of
callback invocations. -/
def runStream : List (Watch α) → List α → List (Watch α) × ℕ
  | ws, [] => (ws, 0)
  | ws, price :: ps =>
      let (ws', n) := stepFrame ws price
      let (ws'', m) := runStream ws' ps
      (ws'', n + m)

/-- The frame indices (counted from `i`) at which callbacks fire. -/
def runIdxFrom : List (Watch α) → List α → ℕ → List ℕ
  | _, [], _ => []
  | ws, price :: ps, i =>
      let (ws', n) := stepFrame ws price
      List.replicate n i ++ runIdxFrom ws' ps (i + 1)

/-- The frame indices at which a single freshly registered watch fires. -/
def fires (w : Watch α) (ps : List α) : List ℕ :=
  runIdxFrom [w] ps 0

/-- The first index of a frame satisfying `f`. -/
def firstIdx? (f : α → Bool) : List α → Option ℕ
  | [] => none
  | a :: l => if f a then some 0 else (firstIdx? f l).map (· + 1)

/-- Embedding of `BinancePriceStream.watch_price` (src/src/binance/wss.py lines 59-84):
store a fresh watch under its key; a same-key registration overwrites in
place, otherwise the entry is appended. -/
def watch_price (ws : List (Watch α)) (target : α) (dir : Direction)
    (bp : Option α) (bs : Option BarrierSide) : List (Watch α) :=
  let w := initWatch target dir bp bs
  if ws.any (fun x => watchKey x = watchKey w) then
    ws.map (fun x => if watchKey x = watchKey w then w else x)
  else ws ++ [w]

/-- Embedding of `BinancePriceStream.cancel_watch` (src/src/binance/wss.py lines 86-93):
delete the entry with the given key, when present. -/
def cancel_watch (ws : List (Watch α)) (target : α) (dir : Direction)
    (bp : Option α) (bs : Option BarrierSide) : List (Watch α) :=
  ws.filter (fun x => watchKey x ≠ (target, dir, bp, bs))

end Stream

/-- The hedging strategy's configuration knobs (spec §4.3.3), together with
the venue parameters its price conversions use. -/
structure HedgingCfg where
  leverage : ℚ
  tick : ℚ
  activationPnl : ℚ
  slPnl : ℚ
  triggerPnl : ℚ
  tpPnl : ℚ
  maxFailures : ℕ
deriving DecidableEq, Repr

/-- The hedging strategy's in-memory state (spec §3 "Hedging State") together
with the stream's watch set it manipulates. -/
structure HedgingState where
  mainSide : Option PositionSide
  mainEntry : Option ℚ
  hedgeEntry : Option ℚ
  activeStopOrderId : Option ℕ
  failureCount : ℕ
  watches : List (Watch ℚ)
deriving DecidableEq, Repr

/-- Embedding of `HedgingStrategy._restart_hedging_cycle`
(src/src/strategies/hedging_strategy/strategy.py lines 542-569): recompute the
activation price from the main entry and re-register the activation watch with
direction opposite to the main side — with no barrier arguments.  A missing
`main_entry_price` raises inside the `try` and leaves the state unchanged. -/
def restart_hedging_cycle (cfg : HedgingCfg) (st : HedgingState) : HedgingState :=
  match st.mainEntry with
  | none => st
  | some entry =>
      let side := match st.mainSide with
        | some .LONG => PositionSide.LONG
        | _ => PositionSide.SHORT
      let activationPrice :=
        calculate_activation_price cfg.leverage cfg.tick entry side cfg.activationPnl
      let dir := match st.mainSide with
        | some .LONG => Direction.short
        | _ => Direction.long
      { st with watches := watch_price st.watches activationPrice dir none none }

/-- Embedding of `HedgingStrategy._on_tp_price_reached`
(src/src/strategies/hedging_strategy/strategy.py lines 524-540): cancel all
watches, clear the stop-order id and the hedge entry, leave `failure_count`
alone, and restart the activation cycle. -/
def on_tp_price_reached (cfg : HedgingCfg) (st : HedgingState)
    (currentPrice : ℚ) : HedgingState :=
  let st₁ : HedgingState :=
    { st with watches := [], activeStopOrderId := none, hedgeEntry := none }
  let _ := currentPrice
  restart_hedging_cycle cfg st₁

/-- Position sides as the stop/classic clients spell them. -/
inductive BuySell
  | Buy
  | Sell
deriving DecidableEq, Repr

/-- The stop strategy's configuration and venue parameters. -/
structure StopCfg where
  leverage : ℚ
  step : ℚ
  stepDp : ℕ
  minQty : ℚ
  positionSize : ℚ
  activationPercent : ℚ
  stopPercent : ℚ
deriving DecidableEq, Repr

/-- The stop strategy's in-memory state (spec §3 "Stop State") together with
the stream's watch set. -/
structure StopState where
  lastAction : Option Action
  lastQuantity : Option ℚ
  activeStopOrderId : Option ℕ
  watches : List (Watch ℚ)
deriving DecidableEq, Repr

/-- The externally visible actions `StopStrategy._reverse_position` takes, in
order. -/
inductive StopEffect
  | cancelStops (positionSide : BuySell)
  | reverseOrder (quantity : ℚ)
  | registerWatch (w : Watch ℚ)
deriving DecidableEq, Repr

/-- Embedding of `StopStrategy._reverse_position` (src/src/strategies/stop_strategy/strategy.py
lines 245-280) followed by `_start_stop_monitoring` (lines 282-318): cancel
the previous side's stop orders, submit the doubling reversal order, and on
success register a fresh activation watch for the new position read back from
the venue (`posAfter`).  The stream's watch set is only ever appended to:
nothing cancels a previously registered watch.  Returns the resulting state
and the effect trace. -/
def stop_reverse_position (cfg : StopCfg) (st : StopState) (currentPrice : ℚ)
    (orderSuccess : Bool) (posAfter : Option (BuySell × ℚ)) :
    StopState × List StopEffect :=
  let prevSide : BuySell := if st.lastAction = some .sell then .Buy else .Sell
  let newQuantity :=
    calculate_quantity cfg.leverage cfg.step cfg.stepDp cfg.minQty
      cfg.positionSize currentPrice
  let totalQuantity := match st.lastQuantity with
    | none => newQuantity * 2
    | some q => q + newQuantity
  if orderSuccess then
    let st₁ := { st with lastQuantity := some newQuantity }
    match posAfter with
    | none => (st₁, [.cancelStops prevSide, .reverseOrder totalQuantity])
    | some (side, entry) =>
        let levels := stop_calculate_stop_levels cfg.leverage entry
          (side = BuySell.Buy) cfg.activationPercent cfg.stopPercent
        let dir := if side = BuySell.Buy then Direction.long else Direction.short
        let w := initWatch levels.1 dir none none
        ({ st₁ with watches := watch_price st₁.watches levels.1 dir none none },
          [.cancelStops prevSide, .reverseOrder totalQuantity, .registerWatch w])
  else (st, [.cancelStops prevSide, .reverseOrder totalQuantity])

/-! Supporting lemmas about Python rounding over exact rationals. -/

/-- Rounding an integer-valued rational is the identity. -/
lemma pyRoundInt_intCast (n : ℤ) : pyRoundInt (n : ℚ) = n := by
  simp [pyRoundInt]

/-- Rounding to `d` decimal places leaves a value with at most `d` decimal
places unchanged. -/
lemma pyRoundDp_eq_self {d : ℕ} {q : ℚ} (h : HasDp d q) : pyRoundDp d q = q := by
  obtain ⟨n, hn⟩ := h
  have h10 : ((10 : ℚ) ^ d) ≠ 0 := by positivity
  rw [pyRoundDp, hn, pyRoundInt_intCast, div_eq_iff h10]
  exact hn.symm

/-- C9: over exact rational arithmetic, for a step `s > 0` with at most `d`
decimal places and a positive `min_qty`, the rounded quantity is
`round(v/s)*s` — the second rounding to `d` places is the identity — except
that a result below `min_qty` is raised to exactly `min_qty`; and in the
un-floored case the result again has at most `d` decimal places. -/
theorem round_value_quantity_claim (v step : ℚ) (d : ℕ) (minQty : ℚ)
    (hstep : 0 < step) (hdp : HasDp d step) (hmin : 0 < minQty) :
    round_value_quantity step d minQty v
        = (if (pyRoundInt (v / step) : ℚ) * step < minQty then minQty
           else (pyRoundInt (v / step) : ℚ) * step) ∧
    (minQty ≤ (pyRoundInt (v / step) : ℚ) * step →
      HasDp d (round_value_quantity step d minQty v)) := by
  obtain ⟨n, hn⟩ := hdp
  have hq : HasDp d ((pyRoundInt (v / step) : ℚ) * step) :=
    ⟨pyRoundInt (v / step) * n, by rw [mul_assoc, hn]; push_cast; ring⟩
  have hr : pyRoundDp d ((pyRoundInt (v / step) : ℚ) * step)
      = (pyRoundInt (v / step) : ℚ) * step := pyRoundDp_eq_self hq
  have hmain : round_value_quantity step d minQty v
      = if (pyRoundInt (v / step) : ℚ) * step < minQty then minQty
        else (pyRoundInt (v / step) : ℚ) * step := by
    simp only [round_value_quantity, hr]
    by_cases hcond : (pyRoundInt (v / step) : ℚ) * step < minQty
    · rw [if_pos ⟨hmin.ne', hcond⟩, if_pos hcond]
    · rw [if_neg (fun h => hcond h.2), if_neg hcond]
  refine ⟨hmain, fun hle => ?_⟩
  rw [hmain, if_neg (not_lt.mpr hle)]
  exact hq

/-- Witness for C9 at a concrete boundary input: raw quantity `0.0004` with
step `0.001` rounds to `0`, which lies below `min_qty = 0.001` and is raised
to exactly `min_qty`. -/
theorem round_value_quantity_claim_witness :
    round_value_quantity (1/1000) 3 (1/1000) (4/10000) = 1/1000 := by
  have h := round_value_quantity_claim (4/10000) (1/1000) 3 (1/1000)
    (by norm_num) ⟨1, by norm_num⟩ (by norm_num)
  rw [h.1]
  norm_num [pyRoundInt]

/-- C1: the hedging client's PnL-to-price conversions add
`pnl/(100·leverage)` to the entry as an absolute price offset instead of
multiplying the entry by `1 ± pnl/(100·leverage)`.  With leverage 4, tick
0.01, a Long main entered at 4000 and `activation_pnl = -5`, the code yields
3999.99 whereas the documented formula (its own docstring example and the
spec) yields 3950; the stop-loss and trigger conversions of the same shape
diverge likewise on the spec's S-E scenario values. -/
theorem hedging_pnl_conversion_additive_eval :
    calculate_activation_price 4 (1/100) 4000 .LONG (-5) = 399999/100 ∧
    round_price (1/100) (specPnlPrice 4 4000 .LONG (-5)) = 3950 ∧
    calculate_stop_loss_price 4 (1/100) 3949 .SHORT (-3) = 394901/100 ∧
    round_price (1/100) (specPnlPrice 4 3949 .SHORT (-3)) = 397862/100 ∧
    calculate_trigger_price 4 (1/100) 3949 .SHORT 5 = 394899/100 ∧
    round_price (1/100) (specPnlPrice 4 3949 .SHORT 5) = 389964/100 := by
  refine ⟨?_, ?_, ?_, ?_, ?_, ?_⟩ <;>
    norm_num [calculate_activation_price, calculate_stop_loss_price,
      calculate_trigger_price, specPnlPrice, round_price, pyRoundDp, pyRoundInt]

/-- C4: `normalize_symbol` implements suffix stripping with Python's
`rstrip('.P')`, which removes all trailing characters from the set
`{'.', 'P'}`: on `"XRP.P"` it returns `"XR"`, not `"XRP"` as removing only
the last two characters would; symbols whose stem does not end in `'.'` or
`'P'` are handled as the claim states. -/
theorem normalize_symbol_rstrip_eval :
    normalize_symbol ['X', 'R', 'P', '.', 'P'] = ['X', 'R'] ∧
    normalize_symbol ['X', 'R', 'P', '.', 'P'] ≠ ['X', 'R', 'P'] ∧
    normalize_symbol ['E', 'T', 'H', 'U', 'S', 'D', 'T', '.', 'P']
        = ['E', 'T', 'H', 'U', 'S', 'D', 'T'] ∧
    normalize_symbol ['E', 'T', 'H', 'U', 'S', 'D', 'T']
        = ['E', 'T', 'H', 'U', 'S', 'D', 'T'] := by
  decide

/-- C7: the duplicate filter drops an action equal to `last_action` and
leaves the state unchanged, accepts any other action while updating
`last_action` to it, always leaves `last_action` equal to the incoming
action afterwards, and therefore drops the second of two consecutive
identical actions. -/
theorem should_process_signal_claim (last : Option Action) (a : Action) :
    (last = some a → should_process_signal last a = (false, last)) ∧
    (last ≠ some a → should_process_signal last a = (true, some a)) ∧
    (should_process_signal last a).2 = some a ∧
    (should_process_signal (should_process_signal last a).2 a).1 = false := by
  cases last with
  | none => simp [should_process_signal]
  | some la => by_cases h : la = a <;> simp [should_process_signal, h]

/-- C10: `process_webhook` lets `should_process_signal` update `last_action`
before the strategy handler runs, so a failing handler returns the error
verdict while `last_action` stays at the failed action, and an immediately
retried identical signal is dropped as a duplicate. -/
theorem process_webhook_error_keeps_last (last : Option Action)
    (msg : List Char) (a : Action) (hp : parse_message msg = some a)
    (hne : last ≠ some a) :
    process_webhook last msg false = (.error, some a) ∧
    process_webhook (process_webhook last msg false).2 msg false
      = (.ignored, some a) := by
  have h1 : should_process_signal last a = (true, some a) := by
    cases last with
    | none => rfl
    | some la =>
        have hla : la ≠ a := fun h => hne (by rw [h])
        simp [should_process_signal, hla]
  have hfirst : process_webhook last msg false = (.error, some a) := by
    simp [process_webhook, hp, h1]
  refine ⟨hfirst, ?_⟩
  rw [hfirst]
  simp [process_webhook, hp, should_process_signal]

/-- Witness for C10: a failing `"sell"` handler leaves `last_action = sell`
and the identical retry is ignored. -/
theorem process_webhook_error_keeps_last_witness :
    process_webhook none ['s', 'e', 'l', 'l'] false
        = (.error, some .sell) ∧
    process_webhook (process_webhook none ['s', 'e', 'l', 'l'] false).2
        ['s', 'e', 'l', 'l'] false = (.ignored, some .sell) :=
  process_webhook_error_keeps_last none ['s', 'e', 'l', 'l'] .sell
    (by decide) (by decide)

/-- C8: the classic reversal submits `last_quantity + new_quantity`, or
`2 × new_quantity` when `last_quantity` is unset, where `new_quantity` is the
grid-rounded `(position_size × leverage) / current_price`; after a successful
reversal only `new_quantity` is stored, and a failed one leaves the state
unchanged. -/
theorem classic_reverse_position_claim (leverage step : ℚ) (d : ℕ)
    (minQty positionSize : ℚ) (st : ClassicState) (currentPrice : ℚ)
    (success : Bool) :
    (classic_reverse_position leverage step d minQty positionSize st
        currentPrice success).1
      = (match st.lastQuantity with
          | none => 2 * calculate_quantity leverage step d minQty positionSize currentPrice
          | some q => q + calculate_quantity leverage step d minQty positionSize currentPrice) ∧
    (success = true →
      ((classic_reverse_position leverage step d minQty positionSize st
          currentPrice success).2).lastQuantity
        = some (calculate_quantity leverage step d minQty positionSize currentPrice)) ∧
    (success = false →
      (classic_reverse_position leverage step d minQty positionSize st
          currentPrice success).2 = st) := by
  unfold classic_reverse_position
  cases success <;> cases h : st.lastQuantity <;> simp [h] <;> ring

/-! Supporting lemmas about the watch machinery. -/

section StreamLemmas

variable {α : Type} [LinearOrder α]

lemma stepFrame_nil (price : α) : stepFrame ([] : List (Watch α)) price = ([], 0) := rfl

lemma stepFrame_singleton (w : Watch α) (price : α) :
    stepFrame [w] price
      = if (checkWatch w price).2 then ([], 1) else ([(checkWatch w price).1], 0) := by
  simp only [stepFrame, stepFrame_nil]

lemma runStream_nil_watches : ∀ ps : List α, runStream [] ps = ([], 0)
  | [] => rfl
  | price :: ps => by
      simp only [runStream, stepFrame_nil, runStream_nil_watches ps]

lemma runIdxFrom_nil_watches : ∀ (ps : List α) (i : ℕ), runIdxFrom [] ps i = []
  | [], _ => rfl
  | price :: ps, i => by
      simp [runIdxFrom, stepFrame_nil, runIdxFrom_nil_watches ps]

lemma runStream_append (ws : List (Watch α)) :
    ∀ ps₁ ps₂ : List α,
      runStream ws (ps₁ ++ ps₂)
        = ((runStream (runStream ws ps₁).1 ps₂).1,
           (runStream ws ps₁).2 + (runStream (runStream ws ps₁).1 ps₂).2) := by
  intro ps₁
  induction ps₁ generalizing ws with
  | nil => intro ps₂; simp [runStream]
  | cons p ps₁ ih =>
      intro ps₂
      simp only [List.cons_append, runStream, List.append_eq]
      rw [ih]
      simp [add_assoc]


lemma runStream_singleton (w : Watch α) :
    ∀ ps : List α, (runStream [w] ps).2 ≤ 1 ∧
      ((runStream [w] ps).2 = 1 → (runStream [w] ps).1 = []) := by
  intro ps
  induction ps generalizing w with
  | nil => simp [runStream]
  | cons p ps ih =>
      by_cases h : (checkWatch w p).2
      · simp only [runStream, stepFrame_singleton, h, if_true, runStream_nil_watches]
        simp
      · simp only [runStream, stepFrame_singleton, h, if_false]
        simpa using ih (checkWatch w p).1

end StreamLemmas

/-- C6: a single registered watch fires at most once over any frame sequence,
and once it has fired (on the frames `ps₁`) it has been removed from the
watch set: processing any further frames `ps₂` re-evaluates nothing and adds
no invocation. -/
theorem watch_single_shot {α : Type} [LinearOrder α] (target : α)
    (dir : Direction) (bp : Option α) (bs : Option BarrierSide)
    (ps₁ ps₂ : List α) :
    (runStream [initWatch target dir bp bs] (ps₁ ++ ps₂)).2 ≤ 1 ∧
    ((runStream [initWatch target dir bp bs] ps₁).2 = 1 →
      (runStream [initWatch target dir bp bs] (ps₁ ++ ps₂)).1 = [] ∧
      (runStream [initWatch target dir bp bs] (ps₁ ++ ps₂)).2 = 1) := by
  refine ⟨(runStream_singleton _ (ps₁ ++ ps₂)).1, fun h1 => ?_⟩
  have hempty : (runStream [initWatch target dir bp bs] ps₁).1 = [] :=
    (runStream_singleton _ ps₁).2 h1
  rw [runStream_append, hempty, runStream_nil_watches, h1]
  exact ⟨rfl, rfl⟩

section BarrierLemmas

variable {α : Type} [LinearOrder α]

omit [LinearOrder α] in
lemma firstIdx?_eq_some {f : α → Bool} :
    ∀ {ps : List α} {c : ℕ}, firstIdx? f ps = some c →
      ∃ p, ps.get? c = some p ∧ f p = true := by
  intro ps
  induction ps with
  | nil => intro c h; simp [firstIdx?] at h
  | cons a l ih =>
      intro c h
      by_cases hf : f a
      · rw [firstIdx?, if_pos hf] at h
        obtain rfl : (0 : ℕ) = c := by simpa using h
        exact ⟨a, rfl, hf⟩
      · rw [firstIdx?, if_neg hf] at h
        obtain ⟨c', hc', hcc⟩ := Option.map_eq_some'.mp h
        obtain ⟨p, hp, hfp⟩ := ih hc'
        subst hcc
        exact ⟨p, by simpa using hp, hfp⟩

lemma runIdxFrom_crossed (target : α) (dir : Direction) (bp : α)
    (bs : BarrierSide) :
    ∀ (ps : List α) (i : ℕ),
      runIdxFrom [(⟨target, dir, some bp, some bs, true, false⟩ : Watch α)] ps i
        = ((firstIdx? (fun p => priceHit dir target p) ps).map (i + ·)).toList := by
  intro ps
  induction ps with
  | nil => intro i; rfl
  | cons p ps ih =>
      intro i
      by_cases hh : priceHit dir target p
      · have hc : checkWatch (⟨target, dir, some bp, some bs, true, false⟩ : Watch α) p
            = (⟨target, dir, some bp, some bs, true, true⟩, true) := by
          simp [checkWatch, hh]
        simp [runIdxFrom, stepFrame_singleton, hc, runIdxFrom_nil_watches, firstIdx?, hh]
      · have hc : checkWatch (⟨target, dir, some bp, some bs, true, false⟩ : Watch α) p
            = (⟨target, dir, some bp, some bs, true, false⟩, false) := by
          simp [checkWatch, hh]
        simp [runIdxFrom, stepFrame_singleton, hc, firstIdx?, hh, ih]
        cases h : firstIdx? (fun p => priceHit dir target p) ps with
        | none => simp
        | some k => simp [Function.comp]; omega

lemma runIdxFrom_uncrossed (target : α) (dir : Direction) (bp : α)
    (bs : BarrierSide) :
    ∀ (ps : List α) (i : ℕ),
      runIdxFrom [(⟨target, dir, some bp, some bs, false, false⟩ : Watch α)] ps i
        = (((firstIdx? (fun p => barrierHit bs bp p) ps).bind fun c =>
            (firstIdx? (fun p => priceHit dir target p) (ps.drop c)).map
              (c + ·)).map (i + ·)).toList := by
  intro ps
  induction ps with
  | nil => intro i; rfl
  | cons p ps ih =>
      intro i
      by_cases hb : barrierHit bs bp p
      · by_cases hh : priceHit dir target p
        · have hc : checkWatch (⟨target, dir, some bp, some bs, false, false⟩ : Watch α) p
              = (⟨target, dir, some bp, some bs, true, true⟩, true) := by
            simp [checkWatch, hb, hh]
          simp [runIdxFrom, stepFrame_singleton, hc, runIdxFrom_nil_watches, firstIdx?, hb, hh]
        · have hc : checkWatch (⟨target, dir, some bp, some bs, false, false⟩ : Watch α) p
              = (⟨target, dir, some bp, some bs, true, false⟩, false) := by
            simp [checkWatch, hb, hh]
          simp [runIdxFrom, stepFrame_singleton, hc, runIdxFrom_crossed, firstIdx?, hb, hh]
          cases h : firstIdx? (fun p => priceHit dir target p) ps with
          | none => simp
          | some k => simp [Function.comp]; omega
      · have hc : checkWatch (⟨target, dir, some bp, some bs, false, false⟩ : Watch α) p
            = (⟨target, dir, some bp, some bs, false, false⟩, false) := by
          simp [checkWatch, hb]
        simp [runIdxFrom, stepFrame_singleton, hc, firstIdx?, hb, ih]
        cases h : firstIdx? (fun p => barrierHit bs bp p) ps with
        | none => simp
        | some c =>
            simp [List.drop_succ_cons, Function.comp]
            cases h2 : firstIdx? (fun p => priceHit dir target p) (ps.drop c) with
            | none => simp
            | some k => simp; omega

end BarrierLemmas

/-- C5: a barrier-gated watch fires exactly at index `c + k`, where `c` is the
first frame strictly on the barrier's side (`price > barrier` for `above`,
`price < barrier` for `below`) and `k` is the first frame from `c` onward
satisfying the plain direction test — that is, from the moment the barrier is
crossed the watch behaves as an unbarriered watch, and it never fires when no
frame has crossed the barrier; in particular every fire index is preceded by
(or equal to) the index of a frame strictly on the barrier's side. -/
theorem watch_barrier_gate {α : Type} [LinearOrder α] (target bp : α)
    (dir : Direction) (bs : BarrierSide) (ps : List α) :
    fires (initWatch target dir (some bp) (some bs)) ps
      = ((firstIdx? (fun p => barrierHit bs bp p) ps).bind fun c =>
          (firstIdx? (fun p => priceHit dir target p) (ps.drop c)).map
            (c + ·)).toList ∧
    ∀ i ∈ fires (initWatch target dir (some bp) (some bs)) ps,
      ∃ j p, j ≤ i ∧ ps.get? j = some p ∧ barrierHit bs bp p = true := by
  have hmain : fires (initWatch target dir (some bp) (some bs)) ps
      = ((firstIdx? (fun p => barrierHit bs bp p) ps).bind fun c =>
          (firstIdx? (fun p => priceHit dir target p) (ps.drop c)).map
            (c + ·)).toList := by
    rw [fires, initWatch, runIdxFrom_uncrossed]
    cases h : ((firstIdx? (fun p => barrierHit bs bp p) ps).bind fun c =>
        (firstIdx? (fun p => priceHit dir target p) (ps.drop c)).map (c + ·)) <;>
      simp [h]
  refine ⟨hmain, fun i hi => ?_⟩
  rw [hmain] at hi
  cases hcross : firstIdx? (fun p => barrierHit bs bp p) ps with
  | none => rw [hcross] at hi; simp at hi
  | some c =>
      rw [hcross] at hi
      simp only [Option.some_bind] at hi
      obtain ⟨p, hp, hbp⟩ := firstIdx?_eq_some hcross
      cases hhit : firstIdx? (fun q => priceHit dir target q) (ps.drop c) with
      | none => rw [hhit] at hi; simp at hi
      | some k =>
          rw [hhit] at hi
          simp only [Option.map_some', Option.toList_some, List.mem_singleton] at hi
          exact hi ▸ ⟨c, p, Nat.le_add_right c k, hp, hbp⟩

/-- C2: evaluating the hedging strategy's TP callback on the S-F scenario
state (Long main entered at 3950, leverage 4, tick 0.01,
`activation_pnl = -5`, one earlier failure): the cycle restart re-registers
the activation watch at 3949.99 with `barrier_price = none` — no barrier at
the TP level is recorded anywhere — while `failure_count` stays unchanged. -/
theorem hedging_tp_rearm_without_barrier_eval :
    (on_tp_price_reached ⟨4, 1/100, -5, -3, 5, 2, 2⟩
        ⟨some .LONG, some 3950, some 3950, some 42, 1,
          [initWatch (39301/10 : ℚ) Direction.long (some 3900) (some .below)]⟩
        3930).watches
      = [initWatch (394999/100 : ℚ) Direction.short none none] ∧
    (on_tp_price_reached ⟨4, 1/100, -5, -3, 5, 2, 2⟩
        ⟨some .LONG, some 3950, some 3950, some 42, 1,
          [initWatch (39301/10 : ℚ) Direction.long (some 3900) (some .below)]⟩
        3930).failureCount = 1 ∧
    ∀ w ∈ (on_tp_price_reached ⟨4, 1/100, -5, -3, 5, 2, 2⟩
        ⟨some .LONG, some 3950, some 3950, some 42, 1,
          [initWatch (39301/10 : ℚ) Direction.long (some 3900) (some .below)]⟩
        3930).watches, w.barrierPrice = none ∧ w.barrierSide = none := by
  have hap : calculate_activation_price 4 ((100 : ℚ)⁻¹) 3950 .LONG (-5)
      = 394999/100 := by
    norm_num [calculate_activation_price, round_price, pyRoundDp, pyRoundInt]
  have hw : (on_tp_price_reached ⟨4, 1/100, -5, -3, 5, 2, 2⟩
      ⟨some .LONG, some 3950, some 3950, some 42, 1,
        [initWatch (39301/10 : ℚ) Direction.long (some 3900) (some .below)]⟩
      3930).watches
      = [initWatch (394999/100 : ℚ) Direction.short none none] := by
    simp [on_tp_price_reached, restart_hedging_cycle, hap, watch_price]
  refine ⟨hw, rfl, fun w hmem => ?_⟩
  rw [hw] at hmem
  simp only [List.mem_singleton] at hmem
  subst hmem
  exact ⟨rfl, rfl⟩

/-- Helper: `watch_price` never drops a key that is already present — it
either overwrites the same-key entry in place or appends a new one. -/
lemma watch_price_keeps_keys {α : Type} [LinearOrder α] (ws : List (Watch α))
    (target : α) (dir : Direction) (bp : Option α) (bs : Option BarrierSide)
    (w : Watch α) (hw : w ∈ ws) :
    ∃ w' ∈ watch_price ws target dir bp bs, watchKey w' = watchKey w := by
  unfold watch_price
  by_cases h : ws.any (fun x => watchKey x = watchKey (initWatch target dir bp bs))
  · rw [if_pos h]
    refine ⟨_, List.mem_map_of_mem _ hw, ?_⟩
    by_cases hk : watchKey w = watchKey (initWatch target dir bp bs)
    · simp only [if_pos hk]
      exact hk.symm
    · simp [hk]
  · rw [if_neg h]
    exact ⟨w, List.mem_append_left _ hw, rfl⟩

/-- C3 (amended): on a reversal the stop strategy cancels the previous side's
stop orders before the order action, but it cancels no price watch: every
watch key present before the signal is still present in the stream's watch
set afterwards. -/
theorem stop_reverse_cancels_stops_not_watches (cfg : StopCfg)
    (st : StopState) (currentPrice : ℚ) (success : Bool)
    (posAfter : Option (BuySell × ℚ)) :
    (∃ q, ((stop_reverse_position cfg st currentPrice success posAfter).2).take 2
        = [StopEffect.cancelStops
             (if st.lastAction = some .sell then .Buy else .Sell),
           StopEffect.reverseOrder q]) ∧
    ∀ w ∈ st.watches,
      ∃ w' ∈ (stop_reverse_position cfg st currentPrice success posAfter).1.watches,
        watchKey w' = watchKey w := by
  unfold stop_reverse_position
  cases success with
  | false => exact ⟨⟨_, rfl⟩, fun w hw => ⟨w, hw, rfl⟩⟩
  | true =>
      cases posAfter with
      | none => exact ⟨⟨_, rfl⟩, fun w hw => ⟨w, hw, rfl⟩⟩
      | some pr =>
          obtain ⟨side, entry⟩ := pr
          exact ⟨⟨_, rfl⟩, fun w hw => watch_price_keeps_keys _ _ _ _ _ w hw⟩

/-- C3 counterexample: a concrete reversal (previous Long position with its
pending activation watch at 4020 still registered, new sell signal at price
3900) leaves the previous position's watch in the stream's watch set, so the
claim that afterwards no watch of the previous position remains is false. -/
theorem stop_reverse_stale_watch_eval :
    initWatch (4020 : ℚ) Direction.long none none ∈
      (stop_reverse_position ⟨4, 1/1000, 3, 1/1000, 1000, 2, 1⟩
        ⟨some .sell, some 1, some 7,
          [initWatch (4020 : ℚ) Direction.long none none]⟩
        3900 true (some (.Sell, 3900))).1.watches := by
  simp [stop_reverse_position, watch_price, initWatch, watchKey,
    stop_calculate_stop_levels]

end TVAB
